/-
Verification of the EduPlanner multi-agent lesson-plan pipeline.

The Python sources are shallowly embedded: dictionaries with string keys
become association lists `List (String × ℤ)` (or `List (List Char × ℤ)` for
the rubric parser, where text is modelled as `List Char`), Python floats
arising from exact rational arithmetic (quiz accuracy, rubric averages)
become `ℚ`, `None`-returning fallible calls become `Option`, and external
LLM calls become oracle parameters supplying the texts/scores the remote
model would return.
-/
import Mathlib

/-! ### SkillTreeAgent (eduplanner/agents/skilltree.py) -/

/-- Embedding of `SkillTreeAgent.update_tree(current_tree, quiz_accuracy)`:
`if quiz_accuracy >= 0.8: for skill, score in new_tree.items(): if score < 5:
increment = 1 if quiz_accuracy < 1.0 else 2; new_tree[skill] = min(5, score + increment)`.
The quiz accuracy (a Python float equal to `correct/total`) is modelled as `ℚ`. -/
def SkillTreeAgent.update_tree (current_tree : List (String × ℤ)) (quiz_accuracy : ℚ) :
    List (String × ℤ) :=
  if 4/5 ≤ quiz_accuracy then
    current_tree.map (fun p =>
      if p.2 < 5 then
        (p.1, min 5 (p.2 + (if quiz_accuracy < 1 then 1 else 2)))
      else p)
  else current_tree

/-- Embedding of `SkillTreeAgent.generate(student_level)`: the LLM call
`LLMConnector.get_expert_response(prompt, is_json=True)` is the oracle
argument `skill_tree_json`; on `None` the method returns
`{node: 1 for node in self.skill_nodes}`. -/
def SkillTreeAgent.generate (skill_nodes : List String)
    (skill_tree_json : Option (List (String × ℤ))) : List (String × ℤ) :=
  match skill_tree_json with
  | none => skill_nodes.map (fun node => (node, 1))
  | some j => j

/-! ### grade_answer (eduplanner/main.py) -/

/-- ASCII upper-casing of one character, as Python `str.upper` acts on the
ASCII range (the only range these verdict strings use). -/
def pyUpperChar (c : Char) : Char :=
  if 'a' ≤ c ∧ c ≤ 'z' then Char.ofNat (c.toNat - 32) else c

/-- `startsWithL pat l` holds when `pat` is a prefix of `l` (Boolean). -/
def startsWithL : List Char → List Char → Bool
  | [], _ => true
  | _ :: _, [] => false
  | p :: ps, c :: cs => p == c && startsWithL ps cs

/-- `containsSub pat l`: Python's substring test `pat in l`. -/
def containsSub (pat : List Char) : List Char → Bool
  | [] => startsWithL pat []
  | c :: cs => startsWithL pat (c :: cs) || containsSub pat cs

/-- Embedding of `grade_answer`: the grading LLM response
(`LLMConnector.get_agent_response(grading_prompt)`, `None` on failure) is the
oracle argument; the function returns
`bool(grade_result and "CORRECT" in grade_result.upper())`.
Python's truthiness of a string is its non-emptiness, and `in` is substring
containment, modelled on character lists. -/
def grade_answer (grade_result : Option String) : Bool :=
  match grade_result with
  | none => false
  | some s => (s != "") && containsSub "CORRECT".toList (s.toList.map pyUpperChar)

/-! ### select_analyst_question (eduplanner_integrated/server.py) -/

structure Question where
  topic : String
  question : String
  answer : String
deriving DecidableEq, Repr

/-- Embedding of `random.choice(seq)` for a nonempty list: the random source
is modelled by an arbitrary natural number `r`, reduced modulo the length. -/
def pyChoice (l : List α) (r : ℕ) (h : l ≠ []) : α :=
  l.get ⟨r % l.length, Nat.mod_lt _ (List.length_pos.mpr h)⟩

theorem pyChoice_mem (l : List α) (r : ℕ) (h : l ≠ []) : pyChoice l r h ∈ l :=
  List.get_mem l _ _

/-- Embedding of `select_analyst_question(questions, topic)`:
`topic_questions = [q for q in questions if q['topic'] == topic]`; return a
random member of `topic_questions` if nonempty, else a random member of
`questions` if nonempty, else `None`. `r` models the random source. -/
def select_analyst_question (questions : List Question) (topic : String) (r : ℕ) :
    Option Question :=
  let topic_questions := questions.filter (fun q => q.topic == topic)
  if h : topic_questions ≠ [] then some (pyChoice topic_questions r h)
  else if h2 : questions ≠ [] then some (pyChoice questions r h2)
  else none

/-! ### Theorems: C1, C9, C10, C8 -/

/-- C1: post-quiz skill update. For every tree whose scores lie in `[0,5]` and
every quiz accuracy in `[0,1]`: when accuracy ≥ 0.8 each node scoring below 5
is incremented by 1 (by 2 when accuracy is exactly 1), clamped at 5; nodes at
5 are untouched; no score exceeds 5 afterwards; no score decreases; and when
accuracy < 0.8 the tree is unchanged. -/
theorem update_tree_spec (tree : List (String × ℤ)) (acc : ℚ)
    (hrange : ∀ p ∈ tree, 0 ≤ p.2 ∧ p.2 ≤ 5) (_h0 : 0 ≤ acc) (h1 : acc ≤ 1) :
    ((4/5 ≤ acc → SkillTreeAgent.update_tree tree acc =
        tree.map (fun p => if p.2 < 5 then
          (p.1, min 5 (p.2 + (if acc = 1 then 2 else 1))) else p)) ∧
     (acc < 4/5 → SkillTreeAgent.update_tree tree acc = tree)) ∧
    (∀ q ∈ SkillTreeAgent.update_tree tree acc, q.2 ≤ 5) ∧
    List.Forall₂ (fun p q : String × ℤ => p.1 = q.1 ∧ p.2 ≤ q.2) tree
      (SkillTreeAgent.update_tree tree acc) := by
  have hinc : (if acc < 1 then (1:ℤ) else 2) = (if acc = 1 then 2 else 1) := by
    rcases lt_or_eq_of_le h1 with h | h
    · simp [h, ne_of_lt h]
    · simp [h]
  refine ⟨⟨fun hge => ?_, fun hlt => ?_⟩, ?_, ?_⟩
  · unfold SkillTreeAgent.update_tree
    rw [if_pos hge]
    refine List.map_congr_left (fun p _ => ?_)
    rw [hinc]
  · unfold SkillTreeAgent.update_tree
    rw [if_neg (not_le.mpr hlt)]
  · intro q hq
    unfold SkillTreeAgent.update_tree at hq
    by_cases hge : 4/5 ≤ acc
    · rw [if_pos hge] at hq
      obtain ⟨p, hp, hpq⟩ := List.mem_map.mp hq
      by_cases h5 : p.2 < 5
      · rw [if_pos h5] at hpq
        rw [← hpq]
        exact min_le_left _ _
      · rw [if_neg h5] at hpq
        subst hpq
        exact (hrange p hp).2
    · rw [if_neg hge] at hq
      exact (hrange q hq).2
  · unfold SkillTreeAgent.update_tree
    by_cases hge : 4/5 ≤ acc
    · rw [if_pos hge]
      refine List.forall₂_map_right_iff.mpr ?_
      refine List.forall₂_same.mpr (fun p _ => ?_)
      by_cases h5 : p.2 < 5
      · rw [if_pos h5]
        refine ⟨rfl, le_min (le_of_lt h5) ?_⟩
        have h1k : (1:ℤ) ≤ (if acc < 1 then (1:ℤ) else 2) := by
          by_cases hl : acc < 1 <;> simp [hl]
        omega
      · rw [if_neg h5]
        exact ⟨rfl, le_refl _⟩
    · rw [if_neg hge]
      exact List.forall₂_same.mpr (fun p _ => ⟨rfl, le_refl _⟩)

/-- Witness for `update_tree_spec` at a concrete tree and accuracy 0.9. -/
theorem update_tree_spec_witness :
    ((∀ p ∈ [("Processes", (3:ℤ)), ("Memory", 5)], 0 ≤ p.2 ∧ p.2 ≤ 5) ∧
      (0:ℚ) ≤ 9/10 ∧ (9:ℚ)/10 ≤ 1) ∧
    (∀ q ∈ SkillTreeAgent.update_tree [("Processes", (3:ℤ)), ("Memory", 5)] (9/10),
      q.2 ≤ 5) :=
  ⟨⟨by decide, by norm_num, by norm_num⟩,
    (update_tree_spec [("Processes", (3:ℤ)), ("Memory", 5)] (9/10)
      (by decide) (by norm_num) (by norm_num)).2.1⟩

/-- C9: skill-tree fallback. When the generation call fails (returns the
`None` sentinel), `generate` returns the profile mapping every configured
skill node to the baseline score 1. -/
theorem generate_fallback_spec (skill_nodes : List String) :
    SkillTreeAgent.generate skill_nodes none = skill_nodes.map (fun node => (node, 1)) ∧
    (∀ p ∈ SkillTreeAgent.generate skill_nodes none, p.2 = 1) ∧
    (SkillTreeAgent.generate skill_nodes none).map Prod.fst = skill_nodes := by
  refine ⟨rfl, ?_, ?_⟩
  · intro p hp
    obtain ⟨n, _, hn⟩ := List.mem_map.mp hp
    exact hn ▸ rfl
  · show (skill_nodes.map fun node => (node, (1:ℤ))).map Prod.fst = skill_nodes
    rw [List.map_map]
    exact List.map_id skill_nodes

theorem startsWithL_iff : ∀ p l : List Char, startsWithL p l = true ↔ p <+: l
  | [], l => by simp [startsWithL]
  | p :: ps, [] => by simp [startsWithL]
  | p :: ps, c :: cs => by
    rw [startsWithL, Bool.and_eq_true, beq_iff_eq, startsWithL_iff ps cs,
      List.cons_prefix_cons]

theorem containsSub_iff : ∀ (p l : List Char), containsSub p l = true ↔ p <:+: l
  | p, [] => by
    rw [containsSub, startsWithL_iff]
    constructor
    · intro h
      exact h.isInfix
    · intro h
      exact (List.infix_nil.mp h) ▸ List.nil_prefix
  | p, c :: cs => by
    rw [containsSub, Bool.or_eq_true, startsWithL_iff, containsSub_iff p cs,
      List.infix_cons_iff]

/-- C10: answer grading. `grade_answer` is `true` exactly when the grader
response is present, non-empty, and its upper-cased text contains the
substring `CORRECT`; in particular the verdict `INCORRECT` is graded `true`,
and a failed generation (`None`) is graded `false`. -/
theorem grade_answer_spec :
    (∀ s : String, grade_answer (some s) = true ↔
      (s ≠ "" ∧ "CORRECT".toList <:+: s.toList.map pyUpperChar)) ∧
    grade_answer (some "INCORRECT") = true ∧
    grade_answer none = false := by
  refine ⟨fun s => ?_, by decide, rfl⟩
  unfold grade_answer
  rw [Bool.and_eq_true, bne_iff_ne, containsSub_iff]

/-- C8: question selection. For every question bank, topic and random draw:
if some record matches the topic, the result is a matching record; otherwise,
if the bank is nonempty, the result is some record of the bank; if the bank is
empty the absence signal `none` is returned. -/
theorem select_analyst_question_spec (questions : List Question) (topic : String) (r : ℕ) :
    ((∃ q ∈ questions, q.topic = topic) →
      ∃ q, select_analyst_question questions topic r = some q ∧
        q ∈ questions ∧ q.topic = topic) ∧
    (questions ≠ [] →
      ∃ q, select_analyst_question questions topic r = some q ∧ q ∈ questions) ∧
    (questions = [] → select_analyst_question questions topic r = none) := by
  refine ⟨fun ⟨q0, hq0, ht0⟩ => ?_, fun hne => ?_, fun hemp => ?_⟩
  · have hmem : q0 ∈ questions.filter (fun q => q.topic == topic) :=
      List.mem_filter.mpr ⟨hq0, by simp [ht0]⟩
    have hfne : questions.filter (fun q => q.topic == topic) ≠ [] :=
      List.ne_nil_of_mem hmem
    have hc := pyChoice_mem (questions.filter (fun q => q.topic == topic)) r hfne
    refine ⟨pyChoice _ r hfne, ?_, List.mem_of_mem_filter hc, ?_⟩
    · simp [select_analyst_question, hfne]
    · have := (List.mem_filter.mp hc).2
      simpa using this
  · by_cases hf : questions.filter (fun q => q.topic == topic) ≠ []
    · refine ⟨pyChoice _ r hf, ?_, List.mem_of_mem_filter (pyChoice_mem _ r hf)⟩
      simp [select_analyst_question, hf]
    · refine ⟨pyChoice questions r hne, ?_, pyChoice_mem questions r hne⟩
      simp [select_analyst_question, hf, hne]
  · subst hemp
    rfl

/-- Witness for `select_analyst_question_spec`: a two-record bank with one
record on topic `Paging`. -/
theorem select_analyst_question_spec_witness :
    (∃ q ∈ [⟨"Paging", "q1", "a1"⟩, ⟨"Deadlock", "q2", "a2"⟩], Question.topic q = "Paging") ∧
    ∃ q, select_analyst_question
        [⟨"Paging", "q1", "a1"⟩, ⟨"Deadlock", "q2", "a2"⟩] "Paging" 7 = some q ∧
      q ∈ [⟨"Paging", "q1", "a1"⟩, ⟨"Deadlock", "q2", "a2"⟩] ∧ q.topic = "Paging" :=
  ⟨⟨⟨"Paging", "q1", "a1"⟩, by simp⟩,
    (select_analyst_question_spec
      [⟨"Paging", "q1", "a1"⟩, ⟨"Deadlock", "q2", "a2"⟩] "Paging" 7).1
      ⟨⟨"Paging", "q1", "a1"⟩, by simp⟩⟩

/-! ### OptimizerAgent retention queue (eduplanner_integrated/server.py) -/

/-- Descending-score order used by `self.queue.sort(key=lambda x: x[1], reverse=True)`. -/
def scoreGE (a b : String × ℤ) : Prop := b.2 ≤ a.2

instance : DecidableRel scoreGE := fun a b => inferInstanceAs (Decidable (b.2 ≤ a.2))

instance : IsTotal (String × ℤ) scoreGE := ⟨fun a b => le_total b.2 a.2⟩

instance : IsTrans (String × ℤ) scoreGE := ⟨fun _ _ _ h1 h2 => le_trans h2 h1⟩

/-- `self.queue_capacity = 5`. -/
def OptimizerAgent.queue_capacity : ℕ := 5

/-- Embedding of `OptimizerAgent._update_queue(new_lp, new_score)`:
`self.queue.append((new_lp, new_score)); self.queue.sort(key=lambda x: x[1],
reverse=True); self.queue = self.queue[:self.queue_capacity]`. -/
def OptimizerAgent.update_queue (queue : List (String × ℤ)) (new_lp : String)
    (new_score : ℤ) : List (String × ℤ) :=
  ((queue ++ [(new_lp, new_score)]).insertionSort scoreGE).take
    OptimizerAgent.queue_capacity

/-- Folding a whole sequence of `(plan, score)` inserts into an initially
empty queue, as the optimization loop does across iterations. -/
def insertAll (cands : List (String × ℤ)) : List (String × ℤ) :=
  cands.foldl (fun q c => OptimizerAgent.update_queue q c.1 c.2) []

/-- Queue invariant relating the queue to everything inserted so far. -/
def QueueInv (inserted queue : List (String × ℤ)) : Prop :=
  queue.length = min inserted.length OptimizerAgent.queue_capacity ∧
  List.Sorted scoreGE queue ∧
  (∀ x ∈ queue, x ∈ inserted) ∧
  (∀ c ∈ inserted, ∀ x ∈ queue.head?, c.2 ≤ x.2)

theorem queueInv_step (inserted queue : List (String × ℤ)) (c : String × ℤ)
    (h : QueueInv inserted queue) :
    QueueInv (inserted ++ [c]) (OptimizerAgent.update_queue queue c.1 c.2) := by
  obtain ⟨hlen, hsort, hmem, hhead⟩ := h
  have hperm := List.perm_insertionSort scoreGE (queue ++ [(c.1, c.2)])
  have hsorted := List.sorted_insertionSort scoreGE (queue ++ [(c.1, c.2)])
  have hLlen : ((queue ++ [(c.1, c.2)]).insertionSort scoreGE).length =
      queue.length + 1 := by
    rw [hperm.length_eq, List.length_append, List.length_singleton]
  refine ⟨?_, ?_, ?_, ?_⟩
  · rw [OptimizerAgent.update_queue, List.length_take, hLlen, hlen,
      List.length_append, List.length_singleton]
    unfold OptimizerAgent.queue_capacity
    omega
  · exact List.Pairwise.sublist (List.take_sublist _ _) hsorted
  · intro x hx
    have hxS := List.mem_of_mem_take hx
    have hxL := hperm.subset hxS
    rcases List.mem_append.mp hxL with hq | hc
    · exact List.mem_append.mpr (Or.inl (hmem x hq))
    · exact List.mem_append.mpr (Or.inr hc)
  · intro c' hc' x hx
    rcases hseq : (queue ++ [(c.1, c.2)]).insertionSort scoreGE with _ | ⟨s0, t⟩
    · exfalso
      rw [hseq] at hLlen
      simp at hLlen
    · have hhd : (OptimizerAgent.update_queue queue c.1 c.2).head? = some s0 := by
        rw [OptimizerAgent.update_queue, hseq]
        rfl
      rw [hhd] at hx
      have hx0 : x = s0 := (Option.some.inj (Option.mem_def.mp hx)).symm
      have hbound : ∀ y ∈ queue ++ [(c.1, c.2)], y.2 ≤ s0.2 := by
        intro y hy
        have hyS : y ∈ s0 :: t := by
          rw [← hseq]
          exact (hperm.mem_iff).mpr hy
        rcases List.mem_cons.mp hyS with h1 | h2
        · subst h1
          exact le_refl _
        · have hst : List.Sorted scoreGE (s0 :: t) := by
            rw [← hseq]
            exact hsorted
          exact List.rel_of_sorted_cons hst y h2
      rw [hx0]
      rcases List.mem_append.mp hc' with hold | hnew
      · rcases hq : queue with _ | ⟨q0, qt⟩
        · exfalso
          rw [hq] at hlen
          simp only [List.length_nil] at hlen
          have hcap : OptimizerAgent.queue_capacity = 5 := rfl
          rw [hcap] at hlen
          have h0 : inserted.length = 0 := by omega
          rw [List.length_eq_zero.mp h0] at hold
          exact absurd hold (List.not_mem_nil c')
        · have hq2 : c'.2 ≤ q0.2 := by
            have h2 := hhead c' hold q0
            rw [hq] at h2
            exact h2 rfl
          have hq0m : q0 ∈ queue ++ [(c.1, c.2)] := by
            rw [hq]
            exact List.mem_append_left _ (List.mem_cons_self q0 qt)
          exact le_trans hq2 (hbound q0 hq0m)
      · have hc'c : c' = c := List.mem_singleton.mp hnew
        rw [hc'c]
        exact hbound (c.1, c.2) (List.mem_append_right _ (List.mem_singleton.mpr rfl))

theorem insertAll_foldl_inv (cands : List (String × ℤ)) :
    ∀ (inserted queue : List (String × ℤ)), QueueInv inserted queue →
      QueueInv (inserted ++ cands)
        (cands.foldl (fun q c => OptimizerAgent.update_queue q c.1 c.2) queue) := by
  induction cands with
  | nil => intro inserted queue h; simpa using h
  | cons c cs ih =>
    intro inserted queue h
    have hstep := queueInv_step inserted queue c h
    have := ih (inserted ++ [c]) (OptimizerAgent.update_queue queue c.1 c.2) hstep
    simpa [List.append_assoc] using this

theorem queueInv_nil : QueueInv [] [] := by
  refine ⟨by simp [OptimizerAgent.queue_capacity], List.sorted_nil, ?_, ?_⟩
  · intro x hx
    exact absurd hx (List.not_mem_nil x)
  · intro c hc
    exact absurd hc (List.not_mem_nil c)

/-- C3: retention queue invariant. After inserting any sequence of
`(plan, score)` candidates into an initially empty queue, the queue holds
exactly `min N capacity` entries (capacity = 5), is sorted by score
descending, every entry is one of the inserted candidates, and the head is a
candidate of maximum score among all candidates ever inserted. -/
theorem retention_queue_spec (cands : List (String × ℤ)) :
    (insertAll cands).length = min cands.length OptimizerAgent.queue_capacity ∧
    List.Sorted scoreGE (insertAll cands) ∧
    (∀ x ∈ insertAll cands, x ∈ cands) ∧
    (cands ≠ [] → ∃ hd, (insertAll cands).head? = some hd ∧ hd ∈ cands ∧
      ∀ c ∈ cands, c.2 ≤ hd.2) := by
  have hinv : QueueInv cands (insertAll cands) := by
    have h := insertAll_foldl_inv cands [] [] queueInv_nil
    rw [List.nil_append] at h
    exact h
  obtain ⟨hlen, hsort, hmem, hhead⟩ := hinv
  refine ⟨hlen, hsort, hmem, fun hne => ?_⟩
  have hqne : insertAll cands ≠ [] := by
    intro habs
    rw [habs] at hlen
    simp only [List.length_nil] at hlen
    have hcap : OptimizerAgent.queue_capacity = 5 := rfl
    rw [hcap] at hlen
    have h0 : cands.length = 0 := by omega
    exact hne (List.length_eq_zero.mp h0)
  obtain ⟨hd, t, hq⟩ := List.exists_cons_of_ne_nil hqne
  refine ⟨hd, by rw [hq]; rfl, ?_, ?_⟩
  · refine hmem hd ?_
    rw [hq]
    exact List.mem_cons_self hd t
  · intro c hc
    have h2 := hhead c hc hd
    rw [hq] at h2
    exact h2 rfl

/-- Witness for `retention_queue_spec`: six inserts with distinct scores keep
five entries with the maximum at the head. -/
theorem retention_queue_spec_witness :
    (([("a", (3:ℤ)), ("b", 7), ("c", 1), ("d", 9), ("e", 4), ("f", 6)] :
        List (String × ℤ)) ≠ []) ∧
    (insertAll [("a", (3:ℤ)), ("b", 7), ("c", 1), ("d", 9), ("e", 4), ("f", 6)]).length =
      min 6 OptimizerAgent.queue_capacity ∧
    ∃ hd, (insertAll [("a", (3:ℤ)), ("b", 7), ("c", 1), ("d", 9), ("e", 4), ("f", 6)]).head? =
        some hd ∧
      hd ∈ [("a", (3:ℤ)), ("b", 7), ("c", 1), ("d", 9), ("e", 4), ("f", 6)] ∧
      ∀ c ∈ [("a", (3:ℤ)), ("b", 7), ("c", 1), ("d", 9), ("e", 4), ("f", 6)], c.2 ≤ hd.2 :=
  ⟨by decide,
    (retention_queue_spec [("a", (3:ℤ)), ("b", 7), ("c", 1), ("d", 9), ("e", 4), ("f", 6)]).1,
    (retention_queue_spec [("a", (3:ℤ)), ("b", 7), ("c", 1), ("d", 9), ("e", 4), ("f", 6)]).2.2.2
      (by decide)⟩

/-! ### run_optimization_core (eduplanner_integrated/server.py) -/

/-- Embedding of the iteration body of `run_optimization_core`. The external
LLM calls are oracles: `cand i` is the lesson-plan text current at iteration
`i` (`cand 0` is the initial plan from `generate_initial_lp`; `cand (i+1)` is
what `optimizer.optimize_lp` produces after iteration `i`, folding in the
evaluator feedback and the analyst insertion), and the list `scores` holds the
per-iteration results of `parse_ciddp_output` on the evaluator response.
Each step is the source's `score, ... = evaluator.evaluate(current_lp);
optimizer._update_queue(current_lp, score); if score > best_score: best_score
= score; best_lp = current_lp`. -/
def optGo (cand : ℕ → String) :
    List ℤ → ℕ → (String × ℤ) → List (String × ℤ) → (String × ℤ) × List (String × ℤ)
  | [], _, best, queue => (best, queue)
  | score :: rest, i, best, queue =>
    optGo cand rest (i + 1)
      (if score > best.2 then (cand i, score) else best)
      (OptimizerAgent.update_queue queue (cand i) score)

/-- Embedding of `run_optimization_core`: `best_lp = current_lp` (the initial
plan), `best_score = 0`, then the iteration loop; returns `(best_lp,
best_score)`. -/
def run_optimization_core (scores : List ℤ) (cand : ℕ → String) : String × ℤ :=
  (optGo cand scores 0 (cand 0, 0) []).1

theorem optGo_best (cand : ℕ → String) :
    ∀ (rest : List ℤ) (i : ℕ) (best : String × ℤ) (queue : List (String × ℤ)),
      ((∀ s ∈ rest, s ≤ best.2) ∧ (optGo cand rest i best queue).1 = best) ∨
      (∃ j, ∃ hj : j < rest.length,
        (optGo cand rest i best queue).1 = (cand (i + j), rest.get ⟨j, hj⟩) ∧
        best.2 < rest.get ⟨j, hj⟩ ∧
        (∀ s ∈ rest, s ≤ rest.get ⟨j, hj⟩) ∧
        (∀ s ∈ rest.take j, s < rest.get ⟨j, hj⟩))
  | [], i, best, queue => Or.inl ⟨by simp, rfl⟩
  | s :: rest, i, best, queue => by
    rw [optGo]
    by_cases hs : s > best.2
    · rw [if_pos hs]
      rcases optGo_best cand rest (i + 1) (cand i, s)
          (OptimizerAgent.update_queue queue (cand i) s) with
        ⟨hall, heq⟩ | ⟨j, hj, heq, hlt, hmax, hfirst⟩
      · refine Or.inr ⟨0, Nat.succ_pos _, ?_, hs, ?_, ?_⟩
        · exact heq
        · intro x hx
          rcases List.mem_cons.mp hx with h1 | h2
          · exact le_of_eq h1
          · exact hall x h2
        · intro x hx
          simp at hx
      · refine Or.inr ⟨j + 1, Nat.succ_lt_succ hj, ?_, ?_, ?_, ?_⟩
        · rw [heq]
          have : i + (j + 1) = i + 1 + j := by omega
          rw [this]
          rfl
        · exact lt_trans hs hlt
        · intro x hx
          rcases List.mem_cons.mp hx with h1 | h2
          · rw [h1]
            exact le_of_lt hlt
          · exact hmax x h2
        · intro x hx
          rw [List.take_succ_cons] at hx
          rcases List.mem_cons.mp hx with h1 | h2
          · rw [h1]
            exact hlt
          · exact hfirst x h2
    · rw [if_neg hs]
      have hsle : s ≤ best.2 := not_lt.mp hs
      rcases optGo_best cand rest (i + 1) best
          (OptimizerAgent.update_queue queue (cand i) s) with
        ⟨hall, heq⟩ | ⟨j, hj, heq, hlt, hmax, hfirst⟩
      · refine Or.inl ⟨?_, heq⟩
        intro x hx
        rcases List.mem_cons.mp hx with h1 | h2
        · exact h1 ▸ hsle
        · exact hall x h2
      · refine Or.inr ⟨j + 1, Nat.succ_lt_succ hj, ?_, hlt, ?_, ?_⟩
        · rw [heq]
          have : i + (j + 1) = i + 1 + j := by omega
          rw [this]
          rfl
        · intro x hx
          rcases List.mem_cons.mp hx with h1 | h2
          · rw [h1]
            exact le_of_lt (lt_of_le_of_lt hsle hlt)
          · exact hmax x h2
        · intro x hx
          rw [List.take_succ_cons] at hx
          rcases List.mem_cons.mp hx with h1 | h2
          · rw [h1]
            exact lt_of_le_of_lt hsle hlt
          · exact hfirst x h2

/-- C4 (amended): best-candidate selection. For every nonempty sequence of
nonnegative per-iteration evaluator scores, the loop returns the candidate of
some iteration `j` whose score is the maximum over all iterations, and every
earlier iteration scored strictly less (first-seen wins among ties). With
negative scores this fails, because `best_score` is initialised to 0 — see
the counterexample. -/
theorem run_optimization_core_spec (scores : List ℤ) (cand : ℕ → String)
    (hne : scores ≠ []) (hnn : ∀ s ∈ scores, 0 ≤ s) :
    ∃ j, ∃ hj : j < scores.length,
      run_optimization_core scores cand = (cand j, scores.get ⟨j, hj⟩) ∧
      (∀ s ∈ scores, s ≤ scores.get ⟨j, hj⟩) ∧
      (∀ s ∈ scores.take j, s < scores.get ⟨j, hj⟩) := by
  have hlp : 0 < scores.length := List.length_pos.mpr hne
  rcases optGo_best cand scores 0 (cand 0, 0) [] with
    ⟨hall, heq⟩ | ⟨j, hj, heq, _, hmax, hfirst⟩
  · refine ⟨0, hlp, ?_, ?_, by simp⟩
    · have h00 : scores.get ⟨0, hlp⟩ = 0 :=
        le_antisymm (hall _ (List.get_mem scores 0 hlp)) (hnn _ (List.get_mem scores 0 hlp))
      rw [run_optimization_core, heq, h00]
    · intro s hs
      have h00 : scores.get ⟨0, hlp⟩ = 0 :=
        le_antisymm (hall _ (List.get_mem scores 0 hlp)) (hnn _ (List.get_mem scores 0 hlp))
      rw [h00]
      exact hall s hs
  · refine ⟨j, hj, ?_, hmax, hfirst⟩
    rw [run_optimization_core, heq, Nat.zero_add]

/-- Witness for `run_optimization_core_spec` at the spec's example score
sequence `[5, 9, 3, 9]`; the returned plan is iteration 2's candidate
(index 1), carrying the first occurrence of the maximum score 9. -/
theorem run_optimization_core_spec_witness :
    (([5, 9, 3, 9] : List ℤ) ≠ [] ∧ ∀ s ∈ ([5, 9, 3, 9] : List ℤ), 0 ≤ s) ∧
    (∃ j, ∃ hj : j < ([5, 9, 3, 9] : List ℤ).length,
      run_optimization_core [5, 9, 3, 9] (fun i => toString i) =
        (toString j, ([5, 9, 3, 9] : List ℤ).get ⟨j, hj⟩) ∧
      (∀ s ∈ ([5, 9, 3, 9] : List ℤ), s ≤ ([5, 9, 3, 9] : List ℤ).get ⟨j, hj⟩) ∧
      (∀ s ∈ ([5, 9, 3, 9] : List ℤ).take j, s < ([5, 9, 3, 9] : List ℤ).get ⟨j, hj⟩)) ∧
    run_optimization_core [5, 9, 3, 9] (fun i => toString i) = ("1", 9) :=
  ⟨⟨by decide, by decide⟩,
    run_optimization_core_spec [5, 9, 3, 9] (fun i => toString i) (by decide) (by decide),
    by decide⟩

/-- C4 counterexample: with per-iteration scores `[-3, -1]` the loop returns
the iteration-1 candidate `"0"` with reported best score 0, although the
maximum score observed across iterations is −1, attained by candidate `"1"`;
so the returned candidate's score (−3) is not the maximum observed, refuting
the claim for arbitrary evaluator score sequences. -/
theorem run_optimization_core_counterexample :
    run_optimization_core [-3, -1] (fun i => toString i) = ("0", 0) ∧
    (("0" : String) ≠ "1") ∧
    ¬ ∃ j : Fin ([(-3 : ℤ), -1]).length,
        run_optimization_core [-3, -1] (fun i => toString i) =
          (toString j.val, [(-3 : ℤ), -1].get j) ∧
        ∀ s ∈ [(-3 : ℤ), -1], s ≤ [(-3 : ℤ), -1].get j := by
  refine ⟨by decide, by decide, ?_⟩
  intro ⟨j, hj, hmax⟩
  have h0 : run_optimization_core [-3, -1] (fun i => toString i) = ("0", 0) := by decide
  rw [h0] at hj
  rcases Fin.exists_fin_two.mp ⟨j, rfl⟩ with h | h
  · rw [h] at hj hmax
    have : ((-1 : ℤ)) ≤ -3 := hmax (-1) (by decide)
    omega
  · rw [h] at hj
    have : ("0" : String) = "1" := congrArg Prod.fst hj
    exact absurd this (by decide)

/-! ### The iterative optimization loop of eduplanner/main.py process() -/

/-- `CIDDP_SCORE_THRESHOLD = 8.0` in main.py. -/
def CIDDP_SCORE_THRESHOLD : ℚ := 8

/-- `MAX_ITERATIONS = 5` in main.py. -/
def MAX_ITERATIONS : ℕ := 5

/-- Embedding of the `while iteration < MAX_ITERATIONS` loop in `process()`.
The list supplies, per iteration, the Evaluator feedback (`None` models a
failed evaluation, `some avg` a feedback dict with that `Average`); the
second argument is the remaining iteration budget `MAX_ITERATIONS -
iteration`.  Returns `(number of evaluator calls, number of optimizer
calls)`.  Mirrors: evaluate; `if not feedback: break`; optimize when
`iteration < MAX_ITERATIONS or score < threshold` (after the increment,
`iteration < MAX_ITERATIONS` is `0 < n`); `if score >= threshold: break`. -/
def processLoop : List (Option ℚ) → ℕ → ℕ × ℕ
  | _, 0 => (0, 0)
  | [], _ + 1 => (0, 0)
  | none :: _, _ + 1 => (1, 0)
  | some avg :: rest, n + 1 =>
    if CIDDP_SCORE_THRESHOLD ≤ avg then
      (1, if 0 < n ∨ avg < CIDDP_SCORE_THRESHOLD then 1 else 0)
    else
      (1 + (processLoop rest n).1,
        (if 0 < n ∨ avg < CIDDP_SCORE_THRESHOLD then 1 else 0) + (processLoop rest n).2)

theorem processLoop_threshold_run (a : ℚ) (ha : CIDDP_SCORE_THRESHOLD ≤ a) :
    ∀ (pre : List ℚ) (rest : List (Option ℚ)) (fuel : ℕ),
      (∀ x ∈ pre, x < CIDDP_SCORE_THRESHOLD) → pre.length < fuel →
      processLoop (pre.map some ++ some a :: rest) fuel =
        (pre.length + 1, pre.length + (if pre.length + 1 < fuel then 1 else 0))
  | [], rest, fuel, _, hlen => by
    obtain ⟨n, rfl⟩ : ∃ n, fuel = n + 1 := ⟨fuel - 1, by omega⟩
    rw [List.map_nil, List.nil_append, processLoop, if_pos ha]
    have hna : ¬a < CIDDP_SCORE_THRESHOLD := not_lt.mpr ha
    simp only [List.length_nil, Nat.zero_add, hna, or_false]
    rcases Nat.eq_zero_or_pos n with h0 | hpos
    · subst h0
      norm_num
    · simp [hpos, Nat.lt_succ_iff, hpos.le, Nat.succ_lt_succ_iff]
  | x :: pre, rest, fuel, hpre, hlen => by
    obtain ⟨n, rfl⟩ : ∃ n, fuel = n + 1 := ⟨fuel - 1, by omega⟩
    have hx : x < CIDDP_SCORE_THRESHOLD := hpre x (List.mem_cons_self x pre)
    rw [List.map_cons, List.cons_append, processLoop, if_neg (not_le.mpr hx)]
    have hrec := processLoop_threshold_run a ha pre rest n
      (fun y hy => hpre y (List.mem_cons_of_mem x hy))
      (by simpa [Nat.succ_lt_succ_iff] using hlen)
    rw [hrec]
    have hor : (0 < n ∨ x < CIDDP_SCORE_THRESHOLD) := Or.inr hx
    rw [if_pos hor]
    simp only [List.length_cons]
    have hiff : pre.length + 1 < n ↔ pre.length + 1 + 1 < n + 1 := by omega
    by_cases hc : pre.length + 1 < n
    · rw [if_pos hc, if_pos (hiff.mp hc)]
      simp only [Prod.mk.injEq]
      omega
    · rw [if_neg hc, if_neg (fun h => hc (hiff.mpr h))]
      simp only [Prod.mk.injEq]
      omega

/-- C5 (amended): threshold termination. In a run whose evaluator averages
are `pre` (each below the 8.0 threshold) followed by an average `a ≥ 8.0`, on
iteration `pre.length + 1 ≤ 5`: the loop performs exactly `pre.length + 1`
evaluations (none after the threshold is met), and exactly one optimization
pass follows the threshold-crossing evaluation when it happens before the
final iteration (`pre.length + 1 < 5`) — but none when the threshold is
first met on the final iteration, because the optimizer gate
`iteration < MAX_ITERATIONS or score < threshold` is then false. -/
theorem process_threshold_spec (pre : List ℚ) (a : ℚ) (rest : List (Option ℚ))
    (hpre : ∀ x ∈ pre, x < CIDDP_SCORE_THRESHOLD) (ha : CIDDP_SCORE_THRESHOLD ≤ a)
    (hlen : pre.length < MAX_ITERATIONS) :
    processLoop (pre.map some ++ some a :: rest) MAX_ITERATIONS =
      (pre.length + 1,
        pre.length + (if pre.length + 1 < MAX_ITERATIONS then 1 else 0)) :=
  processLoop_threshold_run a ha pre rest MAX_ITERATIONS hpre hlen

/-- Witness for `process_threshold_spec`: scores 6 then 8.5 — two
evaluations, two optimizer passes (one after the crossing), then stop. -/
theorem process_threshold_spec_witness :
    ((∀ x ∈ [(6 : ℚ)], x < CIDDP_SCORE_THRESHOLD) ∧
      CIDDP_SCORE_THRESHOLD ≤ (17 : ℚ)/2 ∧ ([(6 : ℚ)]).length < MAX_ITERATIONS) ∧
    processLoop ([(6 : ℚ)].map some ++ some ((17 : ℚ)/2) :: []) MAX_ITERATIONS =
      (2, 2) :=
  ⟨⟨by norm_num [CIDDP_SCORE_THRESHOLD], by norm_num [CIDDP_SCORE_THRESHOLD],
      by norm_num [MAX_ITERATIONS]⟩,
    by
      rw [process_threshold_spec [(6 : ℚ)] ((17 : ℚ)/2) []
        (by norm_num [CIDDP_SCORE_THRESHOLD]) (by norm_num [CIDDP_SCORE_THRESHOLD])
        (by norm_num [MAX_ITERATIONS])]
      norm_num [MAX_ITERATIONS]⟩

/-- C5 counterexample: when the threshold is first met on the final
(fifth) iteration — averages 6, 6, 6, 6 then 8.5 — the run performs five
evaluations but only four optimizer passes: no extra optimization pass runs
after the threshold-crossing evaluation, contradicting the claim that
exactly one more pass always runs. -/
theorem process_threshold_counterexample :
    processLoop [some (6 : ℚ), some 6, some 6, some 6, some ((17 : ℚ)/2)]
        MAX_ITERATIONS = (5, 4) ∧
    (5, 4) ≠ ((5 : ℕ), (4 : ℕ) + 1) := by
  constructor
  · norm_num [processLoop, MAX_ITERATIONS, CIDDP_SCORE_THRESHOLD]
  · intro h
    exact absurd (congrArg Prod.snd h) (by norm_num)

/-! ### LLMConnector._call_api (eduplanner/llm_connector.py) -/

/-- Outcome of the outbound `requests.post` call, as seen by `_call_api`. -/
inductive ApiOutcome where
  /-- The request raised `requests.exceptions.Timeout`. -/
  | timeout : ApiOutcome
  /-- The request raised any other `requests.exceptions.RequestException`
  (connection error, DNS failure, ...). -/
  | transportError : ApiOutcome
  /-- A response arrived with HTTP status `status`; `choices` lists the
  `message.content` strings of the envelope's `choices` array (an absent
  `choices` key and an empty array are both the empty list, matching the
  falsiness test `if not response_json.get('choices')`). -/
  | response (status : ℕ) (choices : List String) : ApiOutcome

/-- Embedding of `LLMConnector._call_api(model, prompt, is_json)`.
`api_key` models the module-level `API_KEY` (`None` when the environment
variable is unset); `outcome` is the network-call oracle; `json_loads`
models `json.loads` over an abstract JSON-value type `J` (`none` on
`JSONDecodeError`).  Every failure path `print`s and returns `None`; the
success value is the content text, or its decoded JSON when `is_json`. -/
def LLMConnector.call_api (J : Type) (api_key : Option String)
    (outcome : ApiOutcome) (is_json : Bool) (json_loads : String → Option J) :
    Option (String ⊕ J) :=
  match api_key with
  | none => none
  | some _ =>
    match outcome with
    | ApiOutcome.timeout => none
    | ApiOutcome.transportError => none
    | ApiOutcome.response status choices =>
      if status ≠ 200 then none
      else
        match choices with
        | [] => none
        | content :: _ =>
          if is_json then (json_loads content).map Sum.inr
          else some (Sum.inl content)

/-- C7 (amended): every failure condition of `_call_api` — missing
credential, timeout, transport failure, non-200 HTTP status, missing
completion choice, and JSON-decode failure under `is_json` — returns the
same sentinel value `None` to the caller (none raises); the failure kinds
are distinguished only in console output, not in the returned value. -/
theorem call_api_failures_sentinel (J : Type) (key : String)
    (outcome : ApiOutcome) (is_json : Bool) (status : ℕ)
    (choices rest : List String) (content : String)
    (json_loads : String → Option J) :
    LLMConnector.call_api J none outcome is_json json_loads = none ∧
    LLMConnector.call_api J (some key) ApiOutcome.timeout is_json json_loads = none ∧
    LLMConnector.call_api J (some key) ApiOutcome.transportError is_json json_loads = none ∧
    (status ≠ 200 →
      LLMConnector.call_api J (some key) (ApiOutcome.response status choices)
        is_json json_loads = none) ∧
    LLMConnector.call_api J (some key) (ApiOutcome.response 200 [])
      is_json json_loads = none ∧
    (json_loads content = none →
      LLMConnector.call_api J (some key) (ApiOutcome.response 200 (content :: rest))
        true json_loads = none) := by
  refine ⟨rfl, rfl, rfl, fun h => ?_, rfl, fun h => ?_⟩
  · simp [LLMConnector.call_api, h]
  · show (json_loads content).map Sum.inr = none
    rw [h]
    rfl

/-- Witness for `call_api_failures_sentinel` at concrete failing inputs. -/
theorem call_api_failures_sentinel_witness :
    ((500 : ℕ) ≠ 200 ∧ (fun _ : String => (none : Option Unit)) "bad" = none) ∧
    LLMConnector.call_api Unit (some "key") (ApiOutcome.response 500 ["x"]) false
      (fun _ => none) = none ∧
    LLMConnector.call_api Unit (some "key") (ApiOutcome.response 200 ["bad"]) true
      (fun _ => none) = none :=
  ⟨⟨by decide, rfl⟩,
    (call_api_failures_sentinel Unit "key" ApiOutcome.timeout false 500 ["x"] []
      "bad" (fun _ => none)).2.2.2.1 (by decide),
    (call_api_failures_sentinel Unit "key" ApiOutcome.timeout false 500 ["x"] []
      "bad" (fun _ => none)).2.2.2.2.2 rfl⟩

/-- C7 counterexample: two different failure conditions — missing credential
(with a perfectly good response available) and a timeout with the credential
present — return the very same sentinel `None`, so the caller cannot tell
which failure occurred; the failure kinds are not distinct in the returned
value. -/
theorem call_api_counterexample :
    LLMConnector.call_api Unit none (ApiOutcome.response 200 ["ok"]) false
        (fun _ => none) =
      LLMConnector.call_api Unit (some "key") ApiOutcome.timeout false
        (fun _ => none) ∧
    LLMConnector.call_api Unit none (ApiOutcome.response 200 ["ok"]) false
      (fun _ => none) = none :=
  ⟨rfl, rfl⟩

/-! ### parse_ciddp_output (eduplanner_integrated/server.py)

Text is modelled as `List Char`.  Python's `str.strip`, `str.split(sep)`,
`str.split(sep, 1)`, `str.strip(chars)`, `int(...)`, dict insertion,
`str.find` and `round` are each embedded below. -/

/-- The whitespace set stripped by Python `str.strip()`. -/
def isPyWs (c : Char) : Bool :=
  c == ' ' || c == '\t' || c == '\n' || c == '\r' || c == '\x0b' || c == '\x0c'

/-- Strip characters satisfying `p` from both ends of the list, as Python
`str.strip` / `str.strip(chars)`. -/
def stripList (p : Char → Bool) (l : List Char) : List Char :=
  ((l.dropWhile p).reverse.dropWhile p).reverse

/-- Python `text.split(sep)` for a one-character separator: `""` splits to
`[""]`, and every separator occurrence opens a new (possibly empty) piece. -/
def splitOnChar (sep : Char) : List Char → List (List Char)
  | [] => [[]]
  | c :: cs =>
    match splitOnChar sep cs with
    | [] => [[]]
    | h :: t => if c == sep then [] :: h :: t else (c :: h) :: t

/-- Python `s.split(sep, 1)` when `sep` occurs: the pieces before and after
the first occurrence; `none` when `sep` is absent (there the source's
two-name tuple unpacking raises `ValueError` and the line is skipped). -/
def splitFirst (sep : Char) : List Char → Option (List Char × List Char)
  | [] => none
  | c :: cs =>
    if c == sep then some ([], cs)
    else (splitFirst sep cs).map (fun p => (c :: p.1, p.2))

/-- A run of decimal digits to its value; `none` on empty input or any
non-digit character. -/
def parseNatDigits (l : List Char) : Option ℕ :=
  match l with
  | [] => none
  | _ =>
    l.foldl (fun acc c =>
      match acc with
      | none => none
      | some n => if c.isDigit then some (10 * n + (c.toNat - 48)) else none)
      (some 0)

/-- Python `int(s)` on an already-stripped string: an optional sign followed
by decimal digits; `none` (the source's caught `ValueError`) otherwise. -/
def parseInt : List Char → Option ℤ
  | '-' :: rest => (parseNatDigits rest).map (fun n => -(n : ℤ))
  | '+' :: rest => (parseNatDigits rest).map (fun n => (n : ℤ))
  | l => (parseNatDigits l).map (fun n => (n : ℤ))

/-- Python dict assignment `scores[key] = v` on a dict kept as an
insertion-ordered association list: overwrite in place, else append. -/
def dictInsert (k : List Char) (v : ℤ) :
    List (List Char × ℤ) → List (List Char × ℤ)
  | [] => [(k, v)]
  | (k', v') :: rest =>
    if k' = k then (k, v) :: rest else (k', v') :: dictInsert k v rest

/-- The `try` body of `parse_ciddp_output` for one line:
`key_part, rest = line.split(":", 1)`;
`key = key_part.strip().strip("[]")`;
`points_part, _ = rest.split(";", 1)`;
`scores[key] = int(points_part.strip())`; any failure is `none`
(the source's bare `except: continue`). -/
def parseLine (line : List Char) : Option (List Char × ℤ) := do
  let (key_part, rest) ← splitFirst ':' line
  let key := stripList (fun c => c == '[' || c == ']') (stripList isPyWs key_part)
  let (points_part, _) ← splitFirst ';' rest
  let points ← parseInt (stripList isPyWs points_part)
  return (key, points)

/-- One iteration of the `for line in lines` loop over the `scores` dict. -/
def scoresStep (d : List (List Char × ℤ)) (line : List Char) :
    List (List Char × ℤ) :=
  match parseLine line with
  | some kv => dictInsert kv.1 kv.2 d
  | none => d

/-- The `scores` dict produced by the whole line loop. -/
def scoresOfLines (lines : List (List Char)) : List (List Char × ℤ) :=
  lines.foldl scoresStep []

/-- `avg_score = sum(scores.values()) / len(scores) if len(scores) > 0 else 0`. -/
def ciddpAvg (scores : List (List Char × ℤ)) : ℚ :=
  if 0 < scores.length then
    (((scores.map Prod.snd).sum : ℤ) : ℚ) / (scores.length : ℚ)
  else 0

/-- Python 3 `round` (banker's rounding, half to even) on exact rationals. -/
def pyRound (q : ℚ) : ℤ :=
  if q - ⌊q⌋ < 1/2 then ⌊q⌋
  else if 1/2 < q - ⌊q⌋ then ⌊q⌋ + 1
  else if Even ⌊q⌋ then ⌊q⌋ else ⌊q⌋ + 1

/-- Suffix of `l` from the first occurrence of `pat`, i.e.
`text[text.find(pat):]`; `none` when `find` returns −1. -/
def findSuffix (pat : List Char) : List Char → Option (List Char)
  | [] => if pat.isEmpty then some [] else none
  | c :: cs => if startsWithL pat (c :: cs) then some (c :: cs) else findSuffix pat cs

/-- `"Advantage:"`, the feedback marker searched with `text.find`. -/
def advantageMarker : List Char := "Advantage:".toList

/-- The fallback feedback text when the marker is absent. -/
def noSummaryFeedback : List Char := "No summary feedback provided.".toList

/-- Embedding of `parse_ciddp_output(text)`: strip the text, split into
lines, accumulate the `scores` dict line by line, average (0 when no line
parsed), locate the `"Advantage:"` suffix for the feedback blob, and return
`(round(avg_score), feedback_f, scores)`. -/
def parse_ciddp_output (text : List Char) :
    ℤ × List Char × List (List Char × ℤ) :=
  (pyRound (ciddpAvg (scoresOfLines (splitOnChar '\n' (stripList isPyWs text)))),
   (findSuffix advantageMarker text).getD noSummaryFeedback,
   scoresOfLines (splitOnChar '\n' (stripList isPyWs text)))

theorem parse_ciddp_fst_eq (text : List Char) :
    (parse_ciddp_output text).1 =
      pyRound (ciddpAvg ((parse_ciddp_output text).2.2)) := rfl

/-- C2 (amended): rubric averaging. When the parsed score dict holds exactly
five entries with points `a, b, c, d, e`, the returned average is the
arithmetic mean of the five integers rounded to the nearest integer
(Python 3 `round`, half to even) — not the exact mean, which the claim as
stated asserts; and with zero matching lines the returned average is 0 (a
failing sentinel, not a passing score). -/
theorem parse_ciddp_output_spec (text : List Char) :
    (∀ a b c d e : ℤ,
      (parse_ciddp_output text).2.2.map Prod.snd = [a, b, c, d, e] →
      (parse_ciddp_output text).1 =
        pyRound (((a + b + c + d + e : ℤ) : ℚ) / 5)) ∧
    ((parse_ciddp_output text).2.2 = [] → (parse_ciddp_output text).1 = 0) := by
  constructor
  · intro a b c d e h5
    have hlen : (parse_ciddp_output text).2.2.length = 5 := by
      have h2 := congrArg List.length h5
      rw [List.length_map] at h2
      simpa using h2
    rw [parse_ciddp_fst_eq, ciddpAvg, hlen, h5, if_pos (by norm_num : (0:ℕ) < 5)]
    congr 1
    push_cast [List.sum_cons, List.sum_nil]
    ring
  · intro h0
    rw [parse_ciddp_fst_eq, h0]
    norm_num [pyRound, ciddpAvg]

/-- Witness for `parse_ciddp_output_spec`: a text with exactly the five
expected score lines, points 1, 1, 1, 1, 2. -/
theorem parse_ciddp_output_spec_witness :
    (parse_ciddp_output
        "[C]: 1; a\n[I]: 1; a\n[D]: 1; a\n[P]: 1; a\n[Pe]: 2; a".toList).2.2.map
      Prod.snd = [1, 1, 1, 1, 2] ∧
    (parse_ciddp_output
        "[C]: 1; a\n[I]: 1; a\n[D]: 1; a\n[P]: 1; a\n[Pe]: 2; a".toList).1 =
      pyRound (((1 + 1 + 1 + 1 + 2 : ℤ) : ℚ) / 5) :=
  ⟨by rfl,
    (parse_ciddp_output_spec
      "[C]: 1; a\n[I]: 1; a\n[D]: 1; a\n[P]: 1; a\n[Pe]: 2; a".toList).1
      1 1 1 1 2 (by rfl)⟩

/-- C2 counterexample: on a text with exactly the five expected score lines
carrying points 1, 1, 1, 1, 2, the returned average is `round(6/5) = 1`,
which differs from the arithmetic mean `6/5`; so the returned average does
not equal the arithmetic mean of the five integers, refuting the claim as
stated (the value is the rounded mean). -/
theorem parse_ciddp_output_counterexample :
    (parse_ciddp_output
        "[C]: 1; a\n[I]: 1; a\n[D]: 1; a\n[P]: 1; a\n[Pe]: 2; a".toList).2.2.map
      Prod.snd = [1, 1, 1, 1, 2] ∧
    (parse_ciddp_output
        "[C]: 1; a\n[I]: 1; a\n[D]: 1; a\n[P]: 1; a\n[Pe]: 2; a".toList).1 = 1 ∧
    (((1 + 1 + 1 + 1 + 2 : ℤ) : ℚ) / 5 ≠ ((1 : ℤ) : ℚ)) := by
  refine ⟨by rfl, ?_, by norm_num⟩
  have hlen : (parse_ciddp_output
      "[C]: 1; a\n[I]: 1; a\n[D]: 1; a\n[P]: 1; a\n[Pe]: 2; a".toList).2.2.length = 5 := by
    rfl
  have h5 : (parse_ciddp_output
      "[C]: 1; a\n[I]: 1; a\n[D]: 1; a\n[P]: 1; a\n[Pe]: 2; a".toList).2.2.map
      Prod.snd = [(1 : ℤ), 1, 1, 1, 2] := by
    rfl
  rw [parse_ciddp_fst_eq, ciddpAvg, hlen, h5]
  norm_num [pyRound, List.sum_cons, List.sum_nil]

/-- C6: parser totality. `parse_ciddp_output` is a total function: every
input text — empty, non-rubric, or arbitrarily malformed — yields a
`(score, feedback, scores)` triple (every partial step of the source's `try`
body is `Option`-guarded, mirroring the bare `except: continue`), and a
malformed line (one on which the `try` body fails) contributes nothing to
the score dict: inserting it anywhere among the lines leaves the dict
unchanged. -/
theorem parse_ciddp_output_total (text : List Char) :
    (∃ s f sc, parse_ciddp_output text = (s, f, sc)) ∧
    (parse_ciddp_output text).2.2 =
      scoresOfLines (splitOnChar '\n' (stripList isPyWs text)) ∧
    (∀ pre post (bad : List Char), parseLine bad = none →
      scoresOfLines (pre ++ bad :: post) = scoresOfLines (pre ++ post)) := by
  refine ⟨⟨_, _, _, rfl⟩, rfl, ?_⟩
  intro pre post bad hbad
  unfold scoresOfLines
  rw [List.foldl_append, List.foldl_append, List.foldl_cons]
  have hstep : scoresStep (List.foldl scoresStep [] pre) bad =
      List.foldl scoresStep [] pre := by
    unfold scoresStep
    rw [hbad]
  rw [hstep]

/-- Witness for `parse_ciddp_output_total`: the line `garbage` fails to
parse and its insertion does not change the dict produced by a well-formed
line. -/
theorem parse_ciddp_output_total_witness :
    parseLine "garbage".toList = none ∧
    scoresOfLines ["[C]: 1; x".toList, "garbage".toList] =
      scoresOfLines ["[C]: 1; x".toList] :=
  ⟨by rfl,
    (parse_ciddp_output_total "".toList).2.2 ["[C]: 1; x".toList] []
      "garbage".toList (by rfl)⟩
